import Mathlib

/-
  Verification development for the s-libs-superclass repository: a shallow
  embedding of the simple-autocomplete component, the wrapped-form-control
  base abstraction, the concatLatestFrom operator and the method-patching
  utility, together with theorems settling the specification claims.
-/

set_option maxRecDepth 4000

namespace SimpleAutocomplete

/-- A JavaScript value of type string, null or undefined.  Both the outer
value (an option identifier or free text) and the inner value (display
text) of the autocomplete component have this type; null and undefined are
distinct under strict equality but identified by a loose comparison with
null. -/
inductive StrVal where
  | str (s : String)
  | null
  | undef
  deriving DecidableEq

/-- Embedding of the AutocompleteOption interface: value is the outer
identifier, label is the inner display text, preferred affects
presentation order only. -/
structure AutocompleteOption where
  value : String
  label : String
  preferred : Bool := false
  deriving DecidableEq

/-- Embedding of the JS loose comparison `value == null`, which is true for
both null and undefined. -/
def looseNull : StrVal → Bool
  | StrVal.null => true
  | StrVal.undef => true
  | StrVal.str _ => false

/-- Embedding of `options.find(x => x.label === value)` from innerToOuter. -/
def findByLabel (options : List AutocompleteOption) (v : StrVal) : Option AutocompleteOption :=
  options.find? (fun x => decide (StrVal.str x.label = v))

/-- Embedding of `options.find(x => x.value === value)` from outerToInner
and declareLatestValueLabel. -/
def findByValue (options : List AutocompleteOption) (v : StrVal) : Option AutocompleteOption :=
  options.find? (fun x => decide (StrVal.str x.value = v))

/-- Embedding of `options.find(x => x.value === value)?.label` from
declareLatestValueLabel: the label of the option whose value matches, or
undefined when no option matches. -/
def labelLookup (options : List AutocompleteOption) (v : StrVal) : StrVal :=
  match findByValue options v with
  | some o => StrVal.str o.label
  | none => StrVal.undef

/-- Embedding of the per-event body of SimpleAutocompleteComponent.innerToOuter,
given the latest option set held by the options$ ReplaySubject.  When
allowNonOptionValue is set the text passes through unchanged; otherwise the
value of the first option whose label strictly equals the text is emitted,
and the event is dropped (none) when the lookup yields undefined, matching
`of(matchingOptionValue).pipe(filter(x => x !== undefined))`. -/
def innerToOuter (allowNonOptionValue : Bool) (options : List AutocompleteOption)
    (value : StrVal) : Option StrVal :=
  if allowNonOptionValue then some value
  else
    match findByLabel options value with
    | some o => some (StrVal.str o.value)
    | none => none

/-- Embedding of the per-event body of SimpleAutocompleteComponent.outerToInner,
given the latest option set: the label of the option whose value strictly
equals the incoming value, else the raw value when allowNonOptionValue is
set, else the empty string. -/
def outerToInner (allowNonOptionValue : Bool) (options : List AutocompleteOption)
    (value : StrVal) : StrVal :=
  match findByValue options value with
  | some o => StrVal.str o.label
  | none => if allowNonOptionValue then value else StrVal.str ""

/-- Per-character embedding of the JS String.prototype.toLowerCase call used
by filterOptions, as a list of characters. -/
def jsToLowerChars (s : String) : List Char := s.toList.map Char.toLower

/-- Helper for the JS String.prototype.includes call: whether the first list
is a prefix of the second. -/
def startsWithChars : List Char → List Char → Bool
  | [], _ => true
  | _ :: _, [] => false
  | a :: as, b :: bs => a == b && startsWithChars as bs

/-- Embedding of the JS String.prototype.includes call over character lists:
whether the needle occurs contiguously inside the haystack. -/
def charsInclude : List Char → List Char → Bool
  | [], needle => startsWithChars needle []
  | c :: rest, needle => startsWithChars needle (c :: rest) || charsInclude rest needle

/-- Embedding of SimpleAutocompleteComponent.filterOptions: a loosely-null
active text yields the unfiltered option set, otherwise the options whose
lowercased label contains the lowercased active text. -/
def filterOptions (options : List AutocompleteOption) (value : StrVal) :
    List AutocompleteOption :=
  match value with
  | StrVal.null => options
  | StrVal.undef => options
  | StrVal.str s =>
      options.filter (fun o => charsInclude (jsToLowerChars o.label) (jsToLowerChars s))

/-- The option set used by the application and the test suite. -/
def inOption : AutocompleteOption := { value := "IN", label := "India", preferred := false }

/-- The Indonesia option from the test suite. -/
def idOption : AutocompleteOption := { value := "ID", label := "Indonesia", preferred := false }

/-- The British Indian Ocean Territory option from the test suite. -/
def ioOption : AutocompleteOption :=
  { value := "IO", label := "British Indian Ocean Territory", preferred := false }

/-- The option list [ioOption, inOption, idOption] bound by the host in the
test suite and the demo application. -/
def countryOptions : List AutocompleteOption := [ioOption, inOption, idOption]

theorem startsWithChars_iff (n h : List Char) :
    startsWithChars n h = true ↔ ∃ t, n ++ t = h := by
  induction n generalizing h with
  | nil => simp [startsWithChars]
  | cons a as ih =>
    cases h with
    | nil =>
      simp [startsWithChars]
    | cons b bs =>
      simp only [startsWithChars, Bool.and_eq_true, beq_iff_eq, ih, List.cons_append,
        List.cons.injEq]
      constructor
      · rintro ⟨rfl, t, rfl⟩
        exact ⟨t, rfl, rfl⟩
      · rintro ⟨t, rfl, rfl⟩
        exact ⟨rfl, t, rfl⟩

theorem charsInclude_iff (h n : List Char) :
    charsInclude h n = true ↔ ∃ pre post, pre ++ n ++ post = h := by
  induction h with
  | nil =>
    simp only [charsInclude, startsWithChars_iff]
    constructor
    · rintro ⟨t, ht⟩
      exact ⟨[], t, by simpa using ht⟩
    · rintro ⟨pre, post, hp⟩
      rcases List.append_eq_nil.mp hp with ⟨h1, h2⟩
      rcases List.append_eq_nil.mp h1 with ⟨rfl, rfl⟩
      exact ⟨[], by simp⟩
  | cons c rest ih =>
    simp only [charsInclude, Bool.or_eq_true, startsWithChars_iff, ih]
    constructor
    · rintro (⟨t, ht⟩ | ⟨pre, post, hp⟩)
      · exact ⟨[], t, by simpa using ht⟩
      · exact ⟨c :: pre, post, by simp [hp]⟩
    · rintro ⟨pre, post, hp⟩
      cases pre with
      | nil =>
        exact Or.inl ⟨post, by simpa using hp⟩
      | cons p ps =>
        simp only [List.cons_append, List.cons.injEq] at hp
        exact Or.inr ⟨ps, post, hp.2⟩

/-- Embedding of the rxjs distinctUntilChanged operator on a finite trace,
after a first emission last has been seen. -/
def dedupFrom {α : Type} [DecidableEq α] (last : α) : List α → List α
  | [] => []
  | x :: xs => if x = last then dedupFrom last xs else x :: dedupFrom x xs

/-- Embedding of the rxjs distinctUntilChanged operator on a finite trace:
the first emission always passes, later emissions pass when they differ
from the previously passed one. -/
def distinctUntilChanged {α : Type} [DecidableEq α] : List α → List α
  | [] => []
  | x :: xs => x :: dedupFrom x xs

/-- Embedding of the outerToInner$ pipeline of WrappedFormControlSuperclass
for the autocomplete component: each value arriving on incomingValues$ is
translated by outerToInner and committed to the inner form control by the
tap, so the resulting list is the sequence of setValue calls performed on
the inner editable surface (one per incoming value, with no deduplication
in this pipeline). -/
def innerSurfaceWrites (allowNonOptionValue : Bool) (options : List AutocompleteOption)
    (incoming : List StrVal) : List StrVal :=
  incoming.map (outerToInner allowNonOptionValue options)

/-- Embedding of the merged active-text stream of declareFilteredOptions,
merge(inputValues$, latestValueLabel$).pipe(distinctUntilChanged()), for a
session in which the user does not type: inputValues$ contributes only its
startWith value (the initial inner control value) and each incoming outer
value contributes the label lookup of latestValueLabel$. -/
def activeTextStream (options : List AutocompleteOption) (initialInput : StrVal)
    (incoming : List StrVal) : List StrVal :=
  distinctUntilChanged (initialInput :: incoming.map (labelLookup options))

/-- Observable state of one autocomplete component instance: the inner
control text, the most recent value seen by the outer consumer, and the
most recent emission of latestValueLabel$ (none while that stream has not
emitted yet, in which case the withLatestFrom in handleFocusOut drops the
focus-out event). -/
structure AcState where
  innerText : StrVal
  outerValue : StrVal
  latestValueLabel : Option StrVal
  deriving DecidableEq

/-- Events driving the autocomplete component: an outer-origin value
assignment (handleIncomingValue), an inner-origin edit of the input
(formControl.valueChanges, covering both typing and selecting an option)
and a focus-out (focusOut$, fed by both the escape key handler and the
focus monitor). -/
inductive AcEvent where
  | incoming (v : StrVal)
  | userInput (v : StrVal)
  | focusOut

/-- One synchronous step of the autocomplete component.  An incoming value
is translated by outerToInner and written with emitEvent false (so the
inner-to-outer pipeline does not run) and flows into latestValue$, whose
label lookup updates latestValueLabel$.  An inner edit fires the
innerToOuter pipeline: an emitted outer value is sent to the outer
consumer and flows into latestValue$; a dropped event changes only the
inner text.  A focus-out, when latestValueLabel$ has emitted, resets the
inner text to the latest value label when it differs, again with
emitEvent false, leaving the outer value untouched. -/
def acStep (allowNonOptionValue : Bool) (options : List AutocompleteOption)
    (st : AcState) : AcEvent → AcState
  | AcEvent.incoming v =>
      { innerText := outerToInner allowNonOptionValue options v,
        outerValue := v,
        latestValueLabel := some (labelLookup options v) }
  | AcEvent.userInput v =>
      match innerToOuter allowNonOptionValue options v with
      | some o =>
          { innerText := v,
            outerValue := o,
            latestValueLabel := some (labelLookup options o) }
      | none => { st with innerText := v }
  | AcEvent.focusOut =>
      match st.latestValueLabel with
      | none => st
      | some lbl => if st.innerText = lbl then st else { st with innerText := lbl }

/-- Run a sequence of events from a given state. -/
def acRun (allowNonOptionValue : Bool) (options : List AutocompleteOption)
    (st : AcState) (events : List AcEvent) : AcState :=
  events.foldl (acStep allowNonOptionValue options) st

/-- The initial state of a freshly constructed component: the inner
FormControl holds null, the outer control holds null, and
latestValueLabel$ has not emitted yet. -/
def acInit : AcState :=
  { innerText := StrVal.null, outerValue := StrVal.null, latestValueLabel := none }

/-- Collect the latest values of the secondary streams into a plain list
when every one of them has emitted, and fail otherwise; this is the gate
applied by withLatestFrom at the moment its source emits. -/
def sequenceLatest {β : Type} : List (Option β) → Option (List β)
  | [] => some []
  | none :: _ => none
  | some b :: rest => (sequenceLatest rest).map (fun bs => b :: bs)

/-- Embedding of of(value).pipe(withLatestFrom(...observables)) for one
primary value, given the latest value available on each secondary stream
at subscription time (none for a stream that has not emitted): the single
source emission produces the combined tuple when every secondary has a
latest value and nothing otherwise, after which the inner stream
completes. -/
def ofValueWithLatestFrom {α β : Type} (v : α) (latests : List (Option β)) :
    List (α × List β) :=
  match sequenceLatest latests with
  | some bs => [(v, bs)]
  | none => []

/-- Embedding of the concatLatestFrom operator on a finite primary trace in
which each primary value is paired with the snapshot of the latest values
of the secondary streams produced by the factory at the moment that value
is processed.  concatMap serializes the per-value inner streams, so the
output is their in-order concatenation. -/
def concatLatestFrom {α β : Type} (trace : List (α × List (Option β))) :
    List (α × List β) :=
  trace.flatMap (fun e => ofValueWithLatestFrom e.1 e.2)

/-- A JS method on an object with state σ and argument/return values ρ:
it consumes the current object state and the argument list and yields the
updated state together with the returned value, none standing for
undefined.  The bind call in patchObjectMethodWith fixes the receiver, so
the state parameter is the bound object. -/
structure JsMethod (σ ρ : Type) where
  run : σ → List ρ → σ × Option ρ

/-- Embedding of patchObjectMethodWith: the replacement function first
invokes the callback with the original arguments, then the original
method (bound to the object) with the same arguments, and, having no
return statement, returns undefined; the return values of the callback
and of the original call are discarded. -/
def patchObjectMethodWith {σ ρ : Type} (method fn : JsMethod σ ρ) : JsMethod σ ρ :=
  JsMethod.mk (fun s args =>
    let s₁ := (fn.run s args).1
    let s₂ := (method.run s₁ args).1
    (s₂, none))

/-- The four state synchronizations installed by the deferred setup step of
WrappedFormControlSuperclass. -/
inductive SyncFeature where
  | errorsSync
  | touchedSync
  | dirtySync
  | pendingSync
  deriving DecidableEq

/-- The facts about a component instance observable by the deferred
callback: whether the instance has been destroyed before the next turn,
and whether ngControl and its control property are resolved. -/
structure DeferredCtx where
  destroyed : Bool
  ngControlControlResolved : Bool
  deriving DecidableEq

/-- Embedding of the setTimeout callback body of
WrappedFormControlSuperclass.syncOuterAndInnerControls: it returns early
when ngControl or ngControl.control is not resolved and otherwise installs
the error, touched, dirty and pending synchronizations; the body reads
nothing else about the instance. -/
def syncOuterAndInnerControls (ctx : DeferredCtx) : List SyncFeature :=
  if !ctx.ngControlControlResolved then []
  else [SyncFeature.errorsSync, SyncFeature.touchedSync, SyncFeature.dirtySync,
    SyncFeature.pendingSync]

/-- Embedding of the syncErrorsValidator factory: the produced validator
ignores the control it is given and returns the captured outer error set
(none standing for null). -/
def syncErrorsValidator {E C : Type} (errors : Option E) : C → Option E :=
  fun _ => errors

/-- The validator-related state of the inner FormControl: the currently
configured validator (none when the control has no validator) and the
current error set. -/
structure InnerControlState (E C : Type) where
  validator : Option (C → Option E)
  errors : Option E

/-- Embedding of AbstractControl.setValidators with a single validator
function: the previously configured validator is replaced wholesale. -/
def setValidators {E C : Type} (st : InnerControlState E C) (f : C → Option E) :
    InnerControlState E C :=
  { st with validator := some f }

/-- Embedding of AbstractControl.updateValueAndValidity as far as errors
are concerned: the errors become the result of running the configured
validator on the control, or null without one. -/
def updateValueAndValidity {E C : Type} (self : C) (st : InnerControlState E C) :
    InnerControlState E C :=
  { st with errors := match st.validator with
      | some f => f self
      | none => none }

/-- Embedding of the tap body of syncOuterToInnerErrors for one outer
status change carrying the outer error set: install the synthetic
validator, then recompute validity without emitting. -/
def applyStatusChange {E C : Type} (self : C) (st : InnerControlState E C)
    (outerErrors : Option E) : InnerControlState E C :=
  updateValueAndValidity self (setValidators st (syncErrorsValidator outerErrors))

/-- Embedding of the syncOuterToInnerErrors$ subscription over a finite
trace of outer status-change events, each carrying the outer error set at
that moment (the startWith makes this trace nonempty in the code). -/
def syncOuterToInnerErrors {E C : Type} (self : C) (st : InnerControlState E C)
    (events : List (Option E)) : InnerControlState E C :=
  events.foldl (applyStatusChange self) st

theorem dedupFrom_append_pair {α : Type} [DecidableEq α] (pre : List α) (last a : α) :
    dedupFrom last (pre ++ [a, a]) = dedupFrom last (pre ++ [a]) := by
  induction pre generalizing last with
  | nil =>
    by_cases h : a = last
    · simp [dedupFrom, h]
    · simp [dedupFrom, h]
  | cons x xs ih =>
    by_cases h : x = last
    · simp [dedupFrom, h, ih]
    · simp [dedupFrom, h, ih]

theorem sequenceLatest_map_some {β : Type} (bs : List β) :
    sequenceLatest (bs.map some) = some bs := by
  induction bs with
  | nil => rfl
  | cons b rest ih => simp [sequenceLatest, ih]

theorem sequenceLatest_eq_none {β : Type} (ls : List (Option β)) (h : none ∈ ls) :
    sequenceLatest ls = none := by
  induction ls with
  | nil => simp at h
  | cons l rest ih =>
    cases l with
    | none => rfl
    | some b =>
      have hr : none ∈ rest := by simpa using h
      simp [sequenceLatest, ih hr]

/-- Claim C1: for every inner edit, when allowNonOptionValue is false and no
option label equals the edited text, innerToOuter emits nothing; when some
option label equals the text (option values being unique), that option
value is emitted; when allowNonOptionValue is true the text passes through
unchanged. -/
theorem innerToOuter_translation (allow : Bool) (options : List AutocompleteOption)
    (v : StrVal) :
    (allow = true → innerToOuter allow options v = some v) ∧
    (allow = false → (∀ o ∈ options, StrVal.str o.label ≠ v) →
      innerToOuter allow options v = none) ∧
    (allow = false → (options.map AutocompleteOption.value).Nodup →
      (∃ o ∈ options, StrVal.str o.label = v) →
      ∃ o ∈ options, StrVal.str o.label = v ∧
        innerToOuter allow options v = some (StrVal.str o.value)) := by
  refine ⟨?_, ?_, ?_⟩
  · intro h
    simp [innerToOuter, h]
  · intro h hnone
    have hfind : findByLabel options v = none := by
      rw [findByLabel, List.find?_eq_none]
      intro x hx
      simpa using hnone x hx
    simp [innerToOuter, h, hfind]
  · intro h _ hex
    obtain ⟨o, ho, hlab⟩ := hex
    have hsome : (options.find? (fun x => decide (StrVal.str x.label = v))).isSome := by
      rw [List.find?_isSome]
      exact ⟨o, ho, by simpa using hlab⟩
    obtain ⟨o₀, hfind⟩ := Option.isSome_iff_exists.mp hsome
    have hmem := List.mem_of_find?_eq_some hfind
    have hlab₀ : StrVal.str o₀.label = v := by simpa using List.find?_some hfind
    refine ⟨o₀, hmem, hlab₀, ?_⟩
    simp [innerToOuter, h, findByLabel, hfind]

/-- Witness for claim C1 on the country options: free text is passed
through when allowed, dropped when not, and a label match emits the
corresponding option value. -/
theorem innerToOuter_translation_witness :
    innerToOuter true countryOptions (StrVal.str "asd") = some (StrVal.str "asd") ∧
    innerToOuter false countryOptions (StrVal.str "asd") = none ∧
    ∃ o ∈ countryOptions, StrVal.str o.label = StrVal.str "Indonesia" ∧
      innerToOuter false countryOptions (StrVal.str "Indonesia") =
        some (StrVal.str o.value) :=
  ⟨(innerToOuter_translation true countryOptions (StrVal.str "asd")).1 rfl,
    (innerToOuter_translation false countryOptions (StrVal.str "asd")).2.1 rfl (by decide),
    (innerToOuter_translation false countryOptions (StrVal.str "Indonesia")).2.2 rfl
      (by decide) (by decide)⟩

/-- Claim C2: for every outer-origin value, a matching option value yields
that option label, and with no matching option the result is the raw value
when allowNonOptionValue is set and the empty string otherwise. -/
theorem outerToInner_translation (allow : Bool) (options : List AutocompleteOption)
    (v : StrVal) :
    ((options.map AutocompleteOption.value).Nodup →
      ∀ o ∈ options, StrVal.str o.value = v →
        outerToInner allow options v = StrVal.str o.label) ∧
    ((∀ o ∈ options, StrVal.str o.value ≠ v) →
      outerToInner allow options v = if allow then v else StrVal.str "") := by
  constructor
  · intro hnodup o ho hval
    have hsome : (options.find? (fun x => decide (StrVal.str x.value = v))).isSome := by
      rw [List.find?_isSome]
      exact ⟨o, ho, by simpa using hval⟩
    obtain ⟨o₀, hfind⟩ := Option.isSome_iff_exists.mp hsome
    have hmem := List.mem_of_find?_eq_some hfind
    have hval₀ : StrVal.str o₀.value = v := by simpa using List.find?_some hfind
    have hvv : o₀.value = o.value := StrVal.str.inj (hval₀.trans hval.symm)
    have ho₀o : o₀ = o := List.inj_on_of_nodup_map hnodup hmem ho hvv
    simp [outerToInner, findByValue, hfind, ho₀o]
  · intro hnone
    have hfind : findByValue options v = none := by
      rw [findByValue, List.find?_eq_none]
      intro x hx
      simpa using hnone x hx
    simp [outerToInner, hfind]

/-- Witness for claim C2 on the country options: the value ID maps to the
label Indonesia, and an unmatched value yields itself or the empty string
depending on allowNonOptionValue. -/
theorem outerToInner_translation_witness :
    outerToInner false countryOptions (StrVal.str "ID") = StrVal.str "Indonesia" ∧
    outerToInner true countryOptions (StrVal.str "asd") = StrVal.str "asd" ∧
    outerToInner false countryOptions (StrVal.str "asd") = StrVal.str "" := by
  refine ⟨(outerToInner_translation false countryOptions (StrVal.str "ID")).1 (by decide)
      idOption (by decide) (by decide), ?_, ?_⟩
  · have h := (outerToInner_translation true countryOptions (StrVal.str "asd")).2 (by decide)
    simpa using h
  · have h := (outerToInner_translation false countryOptions (StrVal.str "asd")).2 (by decide)
    simpa using h

/-- Counterexample for claim C3: two consecutive identical incoming outer
values produce two setValue calls on the inner form control, not one,
because the outerToInner pipeline applies its committing tap to every
incoming value with no deduplication. -/
theorem duplicate_incoming_single_write_counterexample :
    innerSurfaceWrites false countryOptions [StrVal.str "ID", StrVal.str "ID"] =
      [StrVal.str "Indonesia", StrVal.str "Indonesia"] ∧
    (innerSurfaceWrites false countryOptions [StrVal.str "ID", StrVal.str "ID"]).length ≠ 1 := by
  decide

/-- Claim C3 as amended: re-assigning the same outer value twice in a row
adds no emission on the merged, deduplicated active-text stream that
drives option filtering, so the candidate list is recomputed only once;
the inner form control, however, receives a second setValue call, since
that pipeline is not deduplicated. -/
theorem duplicate_incoming_dedup (allow : Bool) (options : List AutocompleteOption)
    (initialInput : StrVal) (pre : List StrVal) (v : StrVal) :
    activeTextStream options initialInput (pre ++ [v, v]) =
      activeTextStream options initialInput (pre ++ [v]) ∧
    innerSurfaceWrites allow options (pre ++ [v, v]) =
      innerSurfaceWrites allow options (pre ++ [v]) ++ [outerToInner allow options v] := by
  constructor
  · simp only [activeTextStream, List.map_append, List.map_cons, List.map_nil,
      distinctUntilChanged]
    rw [dedupFrom_append_pair]
  · simp [innerSurfaceWrites]

/-- Claim C4: on escape or focus loss, once latestValueLabel$ has emitted,
the inner text is reset to the latest value label without changing the
outer value or re-entering the inner-to-outer pipeline; in the concrete
scenario of selecting Indonesia, clearing, typing qwe and losing focus,
the outer value stays ID and the inner text reverts to Indonesia. -/
theorem focusOut_reset (allow : Bool) (options : List AutocompleteOption)
    (st : AcState) (lbl : StrVal) :
    (st.latestValueLabel = some lbl →
      (acStep allow options st AcEvent.focusOut).innerText = lbl ∧
      (acStep allow options st AcEvent.focusOut).outerValue = st.outerValue ∧
      (acStep allow options st AcEvent.focusOut).latestValueLabel = st.latestValueLabel) ∧
    ((acRun false countryOptions acInit
        [AcEvent.userInput (StrVal.str "Indonesia"), AcEvent.userInput (StrVal.str ""),
          AcEvent.userInput (StrVal.str "qwe"), AcEvent.focusOut]).outerValue =
        StrVal.str "ID" ∧
      (acRun false countryOptions acInit
        [AcEvent.userInput (StrVal.str "Indonesia"), AcEvent.userInput (StrVal.str ""),
          AcEvent.userInput (StrVal.str "qwe"), AcEvent.focusOut]).innerText =
        StrVal.str "Indonesia") := by
  constructor
  · intro h
    simp only [acStep]
    rw [h]
    by_cases hc : st.innerText = lbl
    · simp [hc, h]
    · simp [hc, h]
  · constructor
    · decide
    · decide

/-- Witness for claim C4: the reset applied in the state reached after the
scenario typing, where the latest value label is Indonesia. -/
theorem focusOut_reset_witness :
    (acStep false countryOptions
      (AcState.mk (StrVal.str "qwe") (StrVal.str "ID") (some (StrVal.str "Indonesia")))
      AcEvent.focusOut).innerText = StrVal.str "Indonesia" ∧
    (acStep false countryOptions
      (AcState.mk (StrVal.str "qwe") (StrVal.str "ID") (some (StrVal.str "Indonesia")))
      AcEvent.focusOut).outerValue = StrVal.str "ID" := by
  have h := (focusOut_reset false countryOptions
    (AcState.mk (StrVal.str "qwe") (StrVal.str "ID") (some (StrVal.str "Indonesia")))
    (StrVal.str "Indonesia")).1 rfl
  exact ⟨h.1, h.2.1⟩

/-- Claim C5: for each primary value, when every secondary stream has a
latest value the operator emits the combined tuple in order, and when some
secondary stream has not yet emitted the primary event is dropped without
affecting later emissions. -/
theorem concatLatestFrom_emission {α β : Type} (pre post : List (α × List (Option β)))
    (v : α) (ls : List (Option β)) (bs : List β) :
    (ls = bs.map some →
      concatLatestFrom (pre ++ (v, ls) :: post) =
        concatLatestFrom pre ++ (v, bs) :: concatLatestFrom post) ∧
    (none ∈ ls →
      concatLatestFrom (pre ++ (v, ls) :: post) =
        concatLatestFrom pre ++ concatLatestFrom post) := by
  constructor
  · rintro rfl
    simp [concatLatestFrom, ofValueWithLatestFrom, sequenceLatest_map_some]
  · intro h
    simp [concatLatestFrom, ofValueWithLatestFrom, sequenceLatest_eq_none ls h]

/-- Witness for claim C5: a primary value with both secondaries populated
yields the tuple, and one with an unpopulated secondary yields nothing. -/
theorem concatLatestFrom_emission_witness :
    concatLatestFrom [((5 : Nat), [some (1 : Nat), some 2])] = [(5, [1, 2])] ∧
    concatLatestFrom [((6 : Nat), [some (1 : Nat), none])] = [] := by
  have h₁ := concatLatestFrom_emission ([] : List (Nat × List (Option Nat))) []
    5 [some 1, some 2] [1, 2]
  have h₂ := concatLatestFrom_emission ([] : List (Nat × List (Option Nat))) []
    6 [some 1, none] []
  exact ⟨by simpa using h₁.1 rfl, by simpa using h₂.2 (by decide)⟩

/-- Claim C6: the option filter passes every option for a loosely-null
active text, and otherwise keeps exactly the options whose lowercased
label contains the lowercased active text as a contiguous substring; on
the country options the text o keeps exactly British Indian Ocean
Territory and Indonesia. -/
theorem filterOptions_characterization :
    (∀ options : List AutocompleteOption,
      filterOptions options StrVal.null = options ∧
      filterOptions options StrVal.undef = options) ∧
    (∀ (options : List AutocompleteOption) (s : String) (o : AutocompleteOption),
      o ∈ filterOptions options (StrVal.str s) ↔
        o ∈ options ∧ ∃ pre post, pre ++ jsToLowerChars s ++ post = jsToLowerChars o.label) ∧
    filterOptions countryOptions (StrVal.str "o") = [ioOption, idOption] := by
  refine ⟨fun options => ⟨rfl, rfl⟩, ?_, by decide⟩
  intro options s o
  simp only [filterOptions, List.mem_filter, charsInclude_iff]

/-- A mutator method that increments the state and, like Array.prototype.push,
also returns a value. -/
def returningMethod : JsMethod Nat Nat :=
  JsMethod.mk (fun s _ => (s + 1, some 42))

/-- A callback that leaves the state alone and returns undefined. -/
def noopCallback : JsMethod Nat Nat :=
  JsMethod.mk (fun s _ => (s, none))

/-- A void mutator method in the style of markAsTouched: it updates the
state and returns undefined. -/
def voidIncrement : JsMethod Nat Nat :=
  JsMethod.mk (fun s _ => (s + 1, none))

/-- A callback observing the invocation by scaling the state. -/
def recordingCallback : JsMethod Nat Nat :=
  JsMethod.mk (fun s _ => (s * 10, none))

/-- Counterexample for claim C7: patching a method whose original returns a
value makes the invocation return undefined, so the return value is
altered. -/
theorem patchObjectMethodWith_return_counterexample :
    ((patchObjectMethodWith returningMethod noopCallback).run 0 []).2 = none ∧
    (returningMethod.run ((noopCallback.run 0 []).1) []).2 = some 42 ∧
    ((patchObjectMethodWith returningMethod noopCallback).run 0 []).2 ≠
      (returningMethod.run ((noopCallback.run 0 []).1) []).2 := by
  refine ⟨rfl, rfl, by decide⟩

/-- Claim C7 as amended: the patched method first invokes the callback with
the original arguments, then the original method with the same arguments
and binding, and always returns undefined, which matches the original
return value exactly when the original also returns undefined. -/
theorem patchObjectMethodWith_behavior {σ ρ : Type} (method fn : JsMethod σ ρ)
    (s : σ) (args : List ρ) :
    ((patchObjectMethodWith method fn).run s args).1 =
      (method.run ((fn.run s args).1) args).1 ∧
    ((patchObjectMethodWith method fn).run s args).2 = none ∧
    ((method.run ((fn.run s args).1) args).2 = none →
      ((patchObjectMethodWith method fn).run s args).2 =
        (method.run ((fn.run s args).1) args).2) := by
  refine ⟨rfl, rfl, fun h => ?_⟩
  rw [h]
  rfl

/-- Witness for claim C7 on a concrete void mutator: the callback effect
happens before the original effect, and the undefined return matches the
original return. -/
theorem patchObjectMethodWith_behavior_witness :
    ((patchObjectMethodWith voidIncrement recordingCallback).run 3 []).1 = 31 ∧
    ((patchObjectMethodWith voidIncrement recordingCallback).run 3 []).2 =
      (voidIncrement.run ((recordingCallback.run 3 []).1) []).2 := by
  have h := patchObjectMethodWith_behavior voidIncrement recordingCallback 3 []
  refine ⟨?_, h.2.2 rfl⟩
  rw [h.1]
  decide

/-- Counterexample for claim C8: with the instance destroyed before the
deferred turn but the outer control binding resolved, the deferred setup
step still installs the four synchronizations, so it is not a no-op on a
destroyed instance. -/
theorem deferred_setup_destroyed_counterexample :
    (DeferredCtx.mk true true).destroyed = true ∧
    syncOuterAndInnerControls (DeferredCtx.mk true true) ≠ [] := by
  decide

/-- Claim C8 as amended: the deferred setup step guards only on the outer
control binding being resolved, installing the error, touched, dirty and
pending synchronizations exactly when ngControl.control is present, and
its behaviour is independent of whether the instance has been destroyed. -/
theorem deferred_setup_guard (ctx : DeferredCtx) :
    (syncOuterAndInnerControls ctx =
      if ctx.ngControlControlResolved then
        [SyncFeature.errorsSync, SyncFeature.touchedSync, SyncFeature.dirtySync,
          SyncFeature.pendingSync]
      else []) ∧
    (∀ d : Bool,
      syncOuterAndInnerControls (DeferredCtx.mk d ctx.ngControlControlResolved) =
        syncOuterAndInnerControls ctx) := by
  cases ctx with
  | mk d r => cases r <;> simp [syncOuterAndInnerControls]

/-- Claim C9: when the latest value matches no option value the derived
latest-value label is undefined, so escape or focus loss resets the inner
text to undefined while the outer value keeps the already emitted free
text; concretely, typing asd with allowNonOptionValue set and losing focus
leaves the outer value asd and clears the inner text to undefined. -/
theorem freeText_cleared_on_focusOut :
    (∀ (options : List AutocompleteOption) (v : StrVal),
      (∀ o ∈ options, StrVal.str o.value ≠ v) →
        labelLookup options v = StrVal.undef) ∧
    (∀ (allow : Bool) (options : List AutocompleteOption) (st : AcState),
      st.latestValueLabel = some StrVal.undef →
        (acStep allow options st AcEvent.focusOut).innerText = StrVal.undef ∧
        (acStep allow options st AcEvent.focusOut).outerValue = st.outerValue) ∧
    ((acRun true countryOptions acInit
        [AcEvent.userInput (StrVal.str "asd"), AcEvent.focusOut]).innerText =
        StrVal.undef ∧
      (acRun true countryOptions acInit
        [AcEvent.userInput (StrVal.str "asd"), AcEvent.focusOut]).outerValue =
        StrVal.str "asd") := by
  refine ⟨?_, ?_, by decide⟩
  · intro options v h
    have hfind : findByValue options v = none := by
      rw [findByValue, List.find?_eq_none]
      intro x hx
      simpa using h x hx
    simp [labelLookup, hfind]
  · intro allow options st h
    simp only [acStep]
    rw [h]
    by_cases hc : st.innerText = StrVal.undef
    · simp [hc]
    · simp [hc]

/-- Witness for claim C9: the label lookup of the free text asd is
undefined, and the focus-out step in the corresponding state clears the
inner text. -/
theorem freeText_cleared_on_focusOut_witness :
    labelLookup countryOptions (StrVal.str "asd") = StrVal.undef ∧
    (acStep true countryOptions
      (AcState.mk (StrVal.str "asd") (StrVal.str "asd") (some StrVal.undef))
      AcEvent.focusOut).innerText = StrVal.undef :=
  ⟨freeText_cleared_on_focusOut.1 countryOptions (StrVal.str "asd") (by decide),
    (freeText_cleared_on_focusOut.2.1 true countryOptions
      (AcState.mk (StrVal.str "asd") (StrVal.str "asd") (some StrVal.undef)) rfl).1⟩

/-- Claim C10: every outer status change replaces the inner control
validator wholesale with the single synthetic validator, which ignores its
control argument and returns the last-received outer error set; whatever
validators were configured before are discarded, so the outcome does not
depend on the initial validator state. -/
theorem syncOuterToInnerErrors_replaces_validators {E C : Type} (self : C)
    (st : InnerControlState E C) (events : List (Option E)) (e : Option E) :
    (syncOuterToInnerErrors self st (events ++ [e])).validator =
      some (syncErrorsValidator e) ∧
    (∀ c : C, (syncErrorsValidator e : C → Option E) c = e) ∧
    (syncOuterToInnerErrors self st (events ++ [e])).errors = e ∧
    (∀ st' : InnerControlState E C,
      syncOuterToInnerErrors self st (events ++ [e]) =
        syncOuterToInnerErrors self st' (events ++ [e])) := by
  have key : ∀ st₀ : InnerControlState E C,
      syncOuterToInnerErrors self st₀ (events ++ [e]) =
        InnerControlState.mk (some (syncErrorsValidator e)) e := by
    intro st₀
    simp only [syncOuterToInnerErrors, List.foldl_append]
    rfl
  refine ⟨by rw [key st], fun c => rfl, by rw [key st], fun st' => by rw [key st, key st']⟩

end SimpleAutocomplete
